import Mathlib

/-!
Shallow embedding of the worktree subsystem of the Emdash2 repository
(src/src-tauri/src/worktree.rs) and proofs about its specification.

Strings are modelled as lists of characters (`Str`).  External effects
(git invocations, the filesystem, the settings store and the project
database) are modelled as explicit parameters and effect logs.
-/

namespace Emdash

abbrev Str := List Char

/-- Rust `str::contains(pat)` for a literal pattern: some contiguous
run of `l` equals `pat`. -/
def containsStr (pat : Str) (l : Str) : Bool :=
  match l with
  | [] => pat.isEmpty
  | _ :: rest => pat.isPrefixOf l || containsStr pat rest

/-- Rust `str::find(pat)` followed by indexing past the match: the
suffix of `l` after the first occurrence of `pat`, if any. -/
def splitAfterFirst (pat : Str) (l : Str) : Option Str :=
  match l with
  | [] => if pat.isEmpty then some [] else none
  | _ :: rest =>
    if pat.isPrefixOf l then some (l.drop pat.length)
    else splitAfterFirst pat rest

/-- Split a character list at every occurrence of the character `c`
(the pieces do not contain `c`; empty pieces are kept, as in Rust's
`str::split`). -/
def splitChar (c : Char) : Str → List Str
  | [] => [[]]
  | x :: xs =>
    let rest := splitChar c xs
    if x = c then [] :: rest
    else match rest with
      | [] => [[x]]
      | r :: rs => (x :: r) :: rs

/-- Drop the trailing characters of `l` satisfying `p` (helper for
Rust's two-sided trimming). -/
def dropTrailing (p : Char → Bool) (l : Str) : Str :=
  (l.reverse.dropWhile p).reverse

/-- Rust `str::trim_matches(pattern)`: remove the characters satisfying
`p` from both ends. -/
def trimMatches (p : Char → Bool) (l : Str) : Str :=
  dropTrailing p (l.dropWhile p)

/-- Rust `str::trim` (whitespace from both ends). -/
def rustTrim (l : Str) : Str :=
  trimMatches Char.isWhitespace l

/-- One line of Rust `str::lines`: strip a single trailing carriage
return. -/
def stripCR (l : Str) : Str :=
  if l.getLast? = some '\r' then l.dropLast else l

/-- Rust `str::lines`: split on newline, strip a trailing carriage
return per line, and drop the final empty piece produced by a trailing
newline. -/
def rustLines (l : Str) : List Str :=
  let parts := (splitChar '\n' l).map stripCR
  match parts.getLast? with
  | some [] => parts.dropLast
  | _ => parts

/-- Rust `str::split_whitespace`: maximal runs of non-whitespace
characters. -/
def splitWhitespaceStr (l : Str) : List Str :=
  (l.splitOnP Char.isWhitespace).filter (· ≠ [])

/-- Rust `str::trim_start_matches(pat)`: repeatedly strip the literal
pattern `pat` from the front.  The fuel argument only bounds the number
of loop iterations; `stripAllFront` supplies enough for the loop to run
to completion. -/
def stripAllFrontAux (pat : Str) : Nat → Str → Str
  | 0, l => l
  | fuel + 1, l =>
    if pat = [] then l
    else if pat.isPrefixOf l then stripAllFrontAux pat fuel (l.drop pat.length)
    else l

/-- Rust `str::trim_start_matches(pat)`. -/
def stripAllFront (pat l : Str) : Str :=
  stripAllFrontAux pat (l.length + 1) l

/-- Rust `str::replace(pat, rep)` for a non-empty literal pattern:
replace every non-overlapping occurrence, scanning left to right.  The
fuel argument only bounds the number of steps; `replaceStr` supplies
enough to consume the whole input.  (The empty-pattern case never
arises in the embedded code.) -/
def replaceStrAux (pat rep : Str) : Nat → Str → Str
  | 0, l => l
  | fuel + 1, l =>
    if pat = [] then l
    else if pat.isPrefixOf l then rep ++ replaceStrAux pat rep fuel (l.drop pat.length)
    else match l with
      | [] => []
      | c :: rest => c :: replaceStrAux pat rep fuel rest

/-- Rust `str::replace(pat, rep)` for a non-empty literal pattern. -/
def replaceStr (pat rep l : Str) : Str :=
  replaceStrAux pat rep l.length l

/-- One left-to-right pass of Rust `str::replace("aa", "a")` (a pair of
equal characters collapses to one; non-overlapping occurrences). -/
def replacePair (a : Char) : Str → Str
  | x :: y :: rest =>
    if x = a ∧ y = a then a :: replacePair a rest
    else x :: replacePair a (y :: rest)
  | l => l

/-- The `while n.contains("aa") { n = n.replace("aa", "a") }` loops of
`sanitize_branch_name`.  The fuel argument only bounds the number of
iterations; each pass strictly shortens the string, so
`collapseRepeats` supplies enough fuel for the loop to reach its fixed
point. -/
def collapseRepeatsAux (a : Char) : Nat → Str → Str
  | 0, l => l
  | fuel + 1, l =>
    if containsStr [a, a] l then collapseRepeatsAux a fuel (replacePair a l) else l

/-- The dash- and slash-collapsing loop of `sanitize_branch_name`. -/
def collapseRepeats (a : Char) (l : Str) : Str :=
  collapseRepeatsAux a (l.length + 1) l

/-- From worktree.rs `slugify`, the second loop: collapse consecutive
dashes (`prev_dash` tracking). -/
def dedupeDash : Str → Bool → Str
  | [], _ => []
  | c :: rest, prevDash =>
    if c = '-' then
      if prevDash then dedupeDash rest true else c :: dedupeDash rest true
    else c :: dedupeDash rest false

/-- worktree.rs `slugify`: lowercase, map non-alphanumeric characters to
`-`, collapse consecutive dashes, trim dashes from both ends. -/
def slugify (name : Str) : Str :=
  let out := (name.map Char.toLower).map fun ch =>
    if ch.isAlphanum then ch else '-'
  let cleaned := dedupeDash out false
  trimMatches (· = '-') cleaned

/-- worktree.rs `sanitize_branch_name`: whitespace and characters
other than ASCII alphanumerics, `.`, `_`, `/`, `-` become `-`;
repeated `/` and repeated `-`
collapse; leading/trailing `.`, `/`, `-` are trimmed; an empty or
`"HEAD"` result falls back to `"agent/" ++ slugify "task"`. -/
def sanitize_branch_name (name : Str) : Str :=
  let n1 := name.map fun c => if c.isWhitespace then '-' else c
  let n2 := n1.map fun c =>
    if ¬(c.isAlphanum ∨ c = '.' ∨ c = '_' ∨ c = '/' ∨ c = '-') then '-' else c
  let n3 := collapseRepeats '/' n2
  let n4 := collapseRepeats '-' n3
  let trimmed := trimMatches (fun c => c = '.' ∨ c = '/' ∨ c = '-') n4
  if trimmed = [] ∨ trimmed = "HEAD".data then
    "agent/".data ++ slugify "task".data
  else trimmed

/-- worktree.rs `render_branch_template`: substitute the placeholders,
then sanitize. -/
def render_branch_template (template slug timestamp : Str) : Str :=
  let replaced :=
    replaceStr "{timestamp}".data timestamp
      (replaceStr "{slug}".data slug template)
  sanitize_branch_name replaced

/-- worktree.rs `extract_template_prefix`: first path segment of the
template's literal head (before the first placeholder), spaces removed,
edge `.`, `/`, `-` trimmed. -/
def extractTemplatePrefix (template : Str) : Option Str :=
  let head := rustTrim (template.takeWhile (· ≠ '{'))
  if head = [] then none
  else
    let cleaned := head.filter (· ≠ ' ')
    if cleaned = [] then none
    else
      let seg := trimMatches (fun c => c = '.' ∨ c = '/' ∨ c = '-')
        ((splitChar '/' cleaned).headD [])
      if seg = [] then none else some seg

/-! ### SHA-1 and the stable workspace identity (`stable_id_from_path`) -/

/-- Truncation to a 32-bit value. -/
def u32 (n : Nat) : Nat := n % 4294967296

/-- 32-bit left rotation (inputs are 32-bit values). -/
def rotl (k w : Nat) : Nat :=
  ((w <<< k) % 4294967296) ||| (w >>> (32 - k))

/-- Big-endian byte decomposition of a machine word (`k` bytes). -/
def toBytesBE : Nat → Nat → List Nat
  | 0, _ => []
  | k + 1, w => toBytesBE k (w >>> 8) ++ [w &&& 0xFF]

/-- Big-endian 32-bit words from a byte stream. -/
def bytesToWords : List Nat → List Nat
  | b0 :: b1 :: b2 :: b3 :: rest =>
    ((b0 <<< 24) ||| (b1 <<< 16) ||| (b2 <<< 8) ||| b3) :: bytesToWords rest
  | _ => []

/-- SHA-1 message padding: `0x80`, zeros to 56 mod 64, then the bit
length as a big-endian 64-bit integer. -/
def sha1Pad (msg : List Nat) : List Nat :=
  let len := msg.length
  let zeros := (120 - ((len + 1) % 64)) % 64
  msg ++ [0x80] ++ List.replicate zeros 0 ++ toBytesBE 8 (len * 8)

/-- 64-byte blocks of a padded message (the fuel argument only bounds
the iteration count; `chunks64` supplies enough). -/
def chunks64Aux : Nat → List Nat → List (List Nat)
  | 0, _ => []
  | fuel + 1, l => if l = [] then [] else l.take 64 :: chunks64Aux fuel (l.drop 64)

/-- 64-byte blocks of a padded message. -/
def chunks64 (l : List Nat) : List (List Nat) :=
  chunks64Aux l.length l

/-- SHA-1 round function. -/
def sha1F (i b c d : Nat) : Nat :=
  if i < 20 then (b &&& c) ||| ((b ^^^ 0xFFFFFFFF) &&& d)
  else if i < 40 then b ^^^ c ^^^ d
  else if i < 60 then (b &&& c) ||| (b &&& d) ||| (c &&& d)
  else b ^^^ c ^^^ d

/-- SHA-1 round constants. -/
def sha1K (i : Nat) : Nat :=
  if i < 20 then 0x5A827999 else if i < 40 then 0x6ED9EBA1
  else if i < 60 then 0x8F1BBCDC else 0xCA62C1D6

/-- Extend 16 message words to 80 (the accumulator is kept reversed, so
positions 2, 7, 13, 15 are the words 3, 8, 14 and 16 back). -/
def sha1Extend : Nat → List Nat → List Nat
  | 0, acc => acc.reverse
  | n + 1, acc =>
    let w := rotl 1 ((acc.getD 2 0) ^^^ (acc.getD 7 0) ^^^ (acc.getD 13 0) ^^^ (acc.getD 15 0))
    sha1Extend n (w :: acc)

/-- The 80 compression rounds of one SHA-1 block. -/
def sha1Rounds : Nat → List Nat → Nat × Nat × Nat × Nat × Nat → Nat × Nat × Nat × Nat × Nat
  | _, [], st => st
  | i, w :: ws, (a, b, c, d, e) =>
    let temp := u32 (rotl 5 a + sha1F i b c d + e + sha1K i + w)
    sha1Rounds (i + 1) ws (temp, a, rotl 30 b, c, d)

/-- Process one 64-byte block. -/
def sha1Chunk (h : Nat × Nat × Nat × Nat × Nat) (chunk : List Nat) :
    Nat × Nat × Nat × Nat × Nat :=
  let ws := sha1Extend 64 (bytesToWords chunk).reverse
  let (a, b, c, d, e) := sha1Rounds 0 ws h
  let (h0, h1, h2, h3, h4) := h
  (u32 (h0 + a), u32 (h1 + b), u32 (h2 + c), u32 (h3 + d), u32 (h4 + e))

/-- SHA-1 of a byte stream: the 160-bit digest as 20 bytes (the digest
used by the `sha1` crate in `stable_id_from_path`). -/
def sha1 (msg : List Nat) : List Nat :=
  let cs := chunks64 (sha1Pad msg)
  let (h0, h1, h2, h3, h4) :=
    cs.foldl sha1Chunk (0x67452301, 0xEFCDAB89, 0x98BADCFE, 0x10325476, 0xC3D2E1F0)
  toBytesBE 4 h0 ++ toBytesBE 4 h1 ++ toBytesBE 4 h2 ++ toBytesBE 4 h3 ++ toBytesBE 4 h4

/-- Lowercase hexadecimal digit. -/
def hexDigit (n : Nat) : Char :=
  if n < 10 then Char.ofNat (48 + n) else Char.ofNat (87 + n)

/-- Lowercase hexadecimal rendering of a byte list (the `hex` crate's
`encode`). -/
def hexEncode (bytes : List Nat) : Str :=
  (bytes.map (fun b => [hexDigit (b / 16), hexDigit (b % 16)])).flatten

/-- UTF-8 bytes of one character (Rust `str::as_bytes`). -/
def utf8Bytes (c : Char) : List Nat :=
  let n := c.toNat
  if n < 0x80 then [n]
  else if n < 0x800 then [0xC0 ||| (n >>> 6), 0x80 ||| (n &&& 0x3F)]
  else if n < 0x10000 then
    [0xE0 ||| (n >>> 12), 0x80 ||| ((n >>> 6) &&& 0x3F), 0x80 ||| (n &&& 0x3F)]
  else
    [0xF0 ||| (n >>> 18), 0x80 ||| ((n >>> 12) &&& 0x3F),
      0x80 ||| ((n >>> 6) &&& 0x3F), 0x80 ||| (n &&& 0x3F)]

/-- UTF-8 bytes of a string. -/
def utf8Encode (s : Str) : List Nat :=
  (s.map utf8Bytes).flatten

/-- worktree.rs `stable_id_from_path`.  Path canonicalization is an
operating-system effect; it is passed in as `canon`, with `none`
standing for a canonicalization failure (in which case the path is used
as given, as in the source). -/
def stable_id_from_path (canon : Str → Option Str) (path : Str) : Str :=
  let abs := (canon path).getD path
  let hex := hexEncode (sha1 (utf8Encode abs))
  "wt-".data ++ hex.take (Nat.min 12 hex.length)

/-! ### Base-ref resolution and fetching -/

/-- worktree.rs `BaseRefInfo`. -/
structure BaseRefInfo where
  remote : Str
  branch : Str
  full_ref : Str
deriving DecidableEq

/-- db.rs `ProjectSettingsRow` as consumed by
`resolve_project_base_ref` (operator-provided hints, possibly stale). -/
structure ProjectSettingsRow where
  git_remote : Option Str
  git_branch : Option Str
  base_ref : Option Str
deriving DecidableEq

/-- The git commands consulted during base-ref resolution, modelled as
data: each field is the outcome of one external command. -/
structure GitEnv where
  /-- stdout of a successful `git remote` in the project directory, or
  `none` when that command fails. -/
  remoteListOut : Option Str
  /-- stdout of a successful `git remote show origin`, or `none` when
  that command fails. -/
  remoteShowOriginOut : Option Str
  /-- whether `git rev-parse --verify refs/heads/<b>` succeeds. -/
  verifyLocalBranch : Str → Bool
  /-- result of `git fetch <remote> <branch>`: ok, or the error message
  produced by `format_output_error`. -/
  fetch : Str → Str → Except Str Unit

/-- The scan of `get_default_branch` over the lines of
`git remote show origin`: the text after the first "HEAD branch:" of a
line, trimmed, if non-empty. -/
def findHeadBranch : List Str → Option Str
  | [] => none
  | line :: rest =>
    match splitAfterFirst "HEAD branch:".data line with
    | some tail =>
      let b := rustTrim tail
      if b ≠ [] then some b else findHeadBranch rest
    | none => findHeadBranch rest

/-- worktree.rs `get_default_branch`: parse the advertised HEAD branch
out of `git remote show origin`, defaulting to "main". -/
def get_default_branch (remoteShowOriginOut : Option Str) : Str :=
  match remoteShowOriginOut with
  | some stdout => (findHeadBranch (rustLines stdout)).getD "main".data
  | none => "main".data

/-- worktree.rs `parse_base_ref` (with a known project path, as in all
call sites): strip `refs/remotes/` / `remotes/`, require a slash, split
into remote and branch, and require the remote to be configured when
`git remote` succeeds. -/
def parse_base_ref (env : GitEnv) (raw : Str) : Option BaseRefInfo :=
  let cleaned := rustTrim (stripAllFront "remotes/".data
    (stripAllFront "refs/remotes/".data (rustTrim raw)))
  if cleaned = [] ∨ ¬ cleaned.contains '/' then none
  else
    let parts := splitChar '/' cleaned
    let remote := rustTrim (parts.headD [])
    let branch := List.intercalate ['/'] parts.tail
    if remote = [] ∨ rustTrim branch = [] then none
    else
      let remoteOk :=
        match env.remoteListOut with
        | some out => ((rustLines out).map rustTrim).contains remote
        | none => true
      if remoteOk = false then none
      else some ⟨remote, rustTrim branch, remote ++ '/' :: rustTrim branch⟩

/-- worktree.rs `resolve_project_base_ref`: stored base ref if it
parses or names a verifiable local branch; else the stored git branch
when non-empty and space-free; else the remote's advertised HEAD branch
(default "main"). -/
def resolve_project_base_ref (env : GitEnv) (row : ProjectSettingsRow) :
    Except Str BaseRefInfo :=
  let default_remote :=
    match row.git_remote with
    | some r => if rustTrim r ≠ [] then rustTrim r else "origin".data
    | none => "origin".data
  let viaBase : Option BaseRefInfo :=
    match row.base_ref with
    | some br =>
      match parse_base_ref env br with
      | some info => some info
      | none =>
        if rustTrim br ≠ [] ∧ env.verifyLocalBranch (rustTrim br) = true then
          some ⟨default_remote, rustTrim br, default_remote ++ '/' :: rustTrim br⟩
        else none
    | none => none
  match viaBase with
  | some info => Except.ok info
  | none =>
    let fallback_branch :=
      match row.git_branch with
      | some b =>
        if rustTrim b ≠ [] ∧ ¬ (rustTrim b).contains ' ' then rustTrim b
        else get_default_branch env.remoteShowOriginOut
      | none => get_default_branch env.remoteShowOriginOut
    Except.ok ⟨default_remote, fallback_branch, default_remote ++ '/' :: fallback_branch⟩

/-- The five error signatures recognized by
`is_missing_remote_ref_error` (worktree.rs lines 342-349). -/
def missingRefPatterns : List Str :=
  ["couldn".data ++ Char.ofNat 39 :: "t find remote ref".data,
   "could not find remote ref".data,
   "remote ref does not exist".data,
   "fatal: the remote end hung up unexpectedly".data,
   "no such ref was fetched".data]

/-- worktree.rs `is_missing_remote_ref_error`: lowercase the message and
look for any of the five signatures. -/
def is_missing_remote_ref_error (message : Str) : Bool :=
  let msg := message.map Char.toLower
  missingRefPatterns.any (fun pat => containsStr pat msg)

/-- Outcome of `fetch_base_ref_with_fallback` together with the calls
it made to the DB collaborator. -/
structure FetchOutcome where
  result : Except Str BaseRefInfo
  dbUpdates : List (Str × Str)

/-- worktree.rs `fetch_base_ref_with_fallback`.  `dbUpdates` records the
calls to the DB collaborator.  Modelled from the spec: the collaborator
function `db::update_project_base_ref` is not part of the provided
sources; following the collaborator contract it is recorded as the
effect `(projectId, fullRef)`, whose own result the caller ignores. -/
def fetch_base_ref_with_fallback (env : GitEnv) (project_id : Str)
    (base_ref : BaseRefInfo) : FetchOutcome :=
  match env.fetch base_ref.remote base_ref.branch with
  | .ok _ => ⟨.ok base_ref, []⟩
  | .error err =>
    if ¬ is_missing_remote_ref_error err then
      ⟨.error ("Failed to fetch ".data ++ base_ref.full_ref ++ ": ".data ++ err), []⟩
    else
      let fallback_branch := get_default_branch env.remoteShowOriginOut
      let fallback : BaseRefInfo :=
        ⟨"origin".data, fallback_branch, "origin/".data ++ fallback_branch⟩
      if fallback.full_ref = base_ref.full_ref then
        ⟨.error ("Failed to fetch ".data ++ base_ref.full_ref ++ ": ".data ++ err), []⟩
      else
        match env.fetch fallback.remote fallback.branch with
        | .error err2 =>
          ⟨.error ("Failed to fetch base branch. Tried ".data ++ base_ref.full_ref
            ++ " and ".data ++ fallback.full_ref ++ ". ".data ++ err2
            ++ " Please verify the branch exists on the remote.".data), []⟩
        | .ok _ => ⟨.ok fallback, [(project_id, fallback.full_ref)]⟩

/-! ### The settings collaborator (settings.rs `load_settings` output) -/

/-- A JSON value as produced by the settings collaborator. -/
inductive JValue where
  | null
  | bool (b : Bool)
  | num (n : Int)
  | str (s : Str)
  | arr (elems : List JValue)
  | obj (fields : List (Str × JValue))

/-- `serde_json::Value::get(key)`: object field lookup, `None` on
non-objects. -/
def jget : JValue → Str → Option JValue
  | .obj fields, key => (fields.find? (fun kv => kv.1 == key)).map (fun kv => kv.2)
  | _, _ => none

/-- `serde_json::Value::as_bool`. -/
def jAsBool : JValue → Option Bool
  | .bool b => some b
  | _ => none

/-- `serde_json::Value::as_str`. -/
def jAsStr : JValue → Option Str
  | .str s => some s
  | _ => none

/-- worktree.rs `should_push_on_create`: the
`repository.pushOnCreate` flag, `true` unless explicitly boolean
`false`. -/
def should_push_on_create (settings : JValue) : Bool :=
  ((((jget settings "repository".data).bind
    (fun v => jget v "pushOnCreate".data)).bind jAsBool)).getD true

/-- worktree.rs `branch_template`: the `repository.branchTemplate`
string, with its default. -/
def branch_template (settings : JValue) : Str :=
  ((((jget settings "repository".data).bind
    (fun v => jget v "branchTemplate".data)).bind jAsStr)).getD
    "agent/{slug}-{timestamp}".data

/-! ### The worktree registry and lifecycle operations -/

/-- worktree.rs `WorktreeInfo`. -/
structure WorktreeInfo where
  id : Str
  name : Str
  branch : Str
  path : Str
  project_id : Str
  status : Str
  created_at : Str
  last_activity : Option Str
deriving DecidableEq

/-- The mutex-guarded `HashMap<String, WorktreeInfo>` of
`WorktreeState`, modelled as an association list whose first matching
key wins. -/
abbrev Registry := List (Str × WorktreeInfo)

/-- `HashMap::get`. -/
def regLookup (reg : Registry) (id : Str) : Option WorktreeInfo :=
  (reg.find? (fun kv => kv.1 == id)).map (fun kv => kv.2)

/-- `HashMap::insert` (replaces any entry with the same key). -/
def regInsert (reg : Registry) (id : Str) (wt : WorktreeInfo) : Registry :=
  (id, wt) :: reg.filter (fun kv => kv.1 != id)

/-- `HashMap::remove`. -/
def regErase (reg : Registry) (id : Str) : Registry :=
  reg.filter (fun kv => kv.1 != id)

/-- `Path::file_name` with the code's `unwrap_or(path)`: the last
non-empty slash-separated component, or the path itself when there is
none (or it is a parent-directory component). -/
def fileNameOr (p : Str) : Str :=
  match ((splitChar '/' p).filter (fun s => !s.isEmpty)).getLast? with
  | some seg => if seg = "..".data then p else seg
  | none => p

/-- The managed-prefix set of `list_worktrees_internal`:
`agent`, `pr`, `orch`, plus the template's literal prefix when new. -/
def managedPrefixes (template : Str) : List Str :=
  let base := ["agent".data, "pr".data, "orch".data]
  match extractTemplatePrefix template with
  | some p => if base.contains p then base else base ++ [p]
  | none => base

/-- The managed-branch test of `list_worktrees_internal` (worktree.rs
lines 506-512): the branch starts with a managed prefix followed by
`/`, `-`, nothing, `.` or `_`. -/
def isManagedBranch (prefixes : List Str) (branch : Str) : Bool :=
  prefixes.any (fun pf =>
    (pf ++ "/".data).isPrefixOf branch
    || (pf ++ "-".data).isPrefixOf branch
    || pf.isPrefixOf branch
    || (pf ++ ".".data).isPrefixOf branch
    || (pf ++ "_".data).isPrefixOf branch)

/-- The line parse of `list_worktrees_internal`: require a bracketed
branch, take the first whitespace-separated token as the path and the
text between the first `[` and the following `]` as the branch
(default "unknown"). -/
def parseWorktreeLine (line : Str) : Option (Str × Str) :=
  if ¬ (line.contains '[' ∧ line.contains ']') then none
  else
    match splitWhitespaceStr line with
    | [] => none
    | p :: _ =>
      let branch :=
        (((splitChar '[' line)[1]?).map
          (fun s => (splitChar ']' s).headD [])).getD "unknown".data
      some (p, branch)

/-- The loop body of `list_worktrees_internal`: skip unparsable lines;
keep an entry when its branch is managed or its path is registered,
returning the registered record verbatim or synthesizing one. -/
def processWorktreeLine (canon : Str → Option Str) (prefixes : List Str)
    (tracked : Registry) (project_path now line : Str) : Option WorktreeInfo :=
  match parseWorktreeLine line with
  | none => none
  | some (wpath, branch) =>
    let existing := (tracked.map (fun kv => kv.2)).find? (fun wt => wt.path == wpath)
    if isManagedBranch prefixes branch = false ∧ existing = none then none
    else
      match existing with
      | some info => some info
      | none => some {
          id := stable_id_from_path canon wpath,
          name := fileNameOr wpath,
          branch := branch,
          path := wpath,
          project_id := fileNameOr project_path,
          status := "active".data,
          created_at := now,
          last_activity := none }

/-- worktree.rs `list_worktrees_internal`, as a function of the
`git worktree list` stdout, the template from the settings collaborator,
the registry snapshot, and the current time (used for synthesized
`created_at` fields). -/
def list_worktrees_internal (canon : Str → Option Str) (template : Str)
    (tracked : Registry) (project_path now stdout : Str) : List WorktreeInfo :=
  (rustLines stdout).filterMap
    (processWorktreeLine canon (managedPrefixes template) tracked project_path now)

/-- The mutable state touched by the lifecycle operations: the registry
and the set of directories that exist on disk. -/
structure WtState where
  registry : Registry
  fs : List Str
deriving DecidableEq

/-- worktree.rs `WorktreeRemoveArgs`. -/
structure RemoveArgs where
  project_path : Str
  worktree_id : Str
  worktree_path : Option Str
  branch : Option Str
deriving DecidableEq

/-- Rust `str::strip_prefix` (a single occurrence). -/
def stripOnce (pat l : Str) : Option Str :=
  if pat.isPrefixOf l then some (l.drop pat.length) else none

/-- Outcome of `worktree_remove_internal`: the returned payload, the
new state, and the effects performed (`fs::remove_dir_all` targets and
the branch names passed to the ignored-result git branch deletions). -/
structure RemoveOutcome where
  success : Bool
  error : Option Str
  state : WtState
  rmdirCalls : List Str
  localBranchDeletes : List Str
  remoteBranchDeletes : List Str
deriving DecidableEq

/-- worktree.rs `worktree_remove_internal`.  The `git worktree remove
--force` and `git worktree prune` invocations are external tools whose
results the code ignores; the modelled filesystem mutation is the
code's own `fs::remove_dir_all` (performed when the target exists, and
modelled as succeeding — the permission-escalation retry is an
operating-system effect outside the embedding). -/
def worktree_remove_internal (st : WtState) (args : RemoveArgs) : RemoveOutcome :=
  if rustTrim args.project_path = [] then
    ⟨false, some "projectPath is required".data, st, [], [], []⟩
  else
    let existing := regLookup st.registry args.worktree_id
    let path_to_remove := ((existing.map (fun wt => wt.path)).or args.worktree_path).getD []
    let branch_to_delete := (existing.map (fun wt => wt.branch)).or args.branch
    if rustTrim path_to_remove = [] then
      ⟨false, some "Worktree path not provided".data, st, [], [], []⟩
    else
      let onDisk := st.fs.contains path_to_remove
      let fs' := if onDisk then st.fs.filter (fun p => p != path_to_remove) else st.fs
      let rmdirs := if onDisk then [path_to_remove] else []
      let localDeletes := match branch_to_delete with
        | some branch => [branch]
        | none => []
      let remoteDeletes := match branch_to_delete with
        | some branch =>
          [match stripOnce "origin/".data branch with
           | some stripped => stripped
           | none => branch]
        | none => []
      let registry' :=
        if existing.isSome then regErase st.registry args.worktree_id else st.registry
      ⟨true, none, ⟨registry', fs'⟩, rmdirs, localDeletes, remoteDeletes⟩

/-- The git commands consulted by `worktree_merge`. -/
structure MergeEnv where
  remoteShowOriginOut : Option Str
  /-- result of `git checkout <branch>` in the project directory. -/
  checkout : Str → Except Str Unit
  /-- result of `git merge <branch>` in the project directory. -/
  mergeBranch : Str → Except Str Unit

/-- Outcome of `worktree_merge`: payload, new state, and whether the
removal helper was invoked. -/
structure MergeOutcome where
  success : Bool
  error : Option Str
  state : WtState
  removeInvoked : Bool

/-- worktree.rs `worktree_merge`: look up the tracked workspace,
check out the default branch, merge the workspace branch, and only then
delegate to `worktree_remove_internal` (whose result is ignored). -/
def worktree_merge (env : MergeEnv) (st : WtState) (project_path worktree_id : Str) :
    MergeOutcome :=
  if rustTrim project_path = [] then
    ⟨false, some "projectPath is required".data, st, false⟩
  else
    match regLookup st.registry worktree_id with
    | none => ⟨false, some "Worktree not found".data, st, false⟩
    | some worktree =>
      let default_branch := get_default_branch env.remoteShowOriginOut
      match env.checkout default_branch with
      | .error err => ⟨false, some err, st, false⟩
      | .ok _ =>
        match env.mergeBranch worktree.branch with
        | .error err => ⟨false, some err, st, false⟩
        | .ok _ =>
          let r := worktree_remove_internal st
            ⟨project_path, worktree.id, some worktree.path, some worktree.branch⟩
          ⟨true, none, r.state, true⟩

/-- worktree.rs `WorktreeCreateArgs`. -/
structure CreateArgs where
  project_path : Str
  task_name : Str
  project_id : Str
  auto_approve : Option Bool

/-- The collaborators consulted by `worktree_create`. -/
structure CreateEnv where
  canon : Str → Option Str
  settings : JValue
  /-- result of `db::project_settings_row` for the project id. -/
  projectRow : Except Str ProjectSettingsRow
  git : GitEnv
  /-- result of `git worktree add -b <branch> <path> <fullRef>`. -/
  worktreeAdd : Str → Str → Str → Except Str Unit
  /-- whether a successful `git worktree add` leaves the target
  directory on disk (the code re-checks `exists()` afterwards). -/
  addCreatesDir : Bool
  /-- `Utc::now().timestamp_millis()` rendered as a string. -/
  timestamp : Str
  /-- `Utc::now().to_rfc3339()`. -/
  now : Str

/-- Outcome of `worktree_create`: payload, new registry and filesystem,
DB-collaborator calls, and the branches pushed upstream by the
best-effort `git push --set-upstream origin <branch>`. -/
structure CreateOutcome where
  success : Bool
  error : Option Str
  worktree : Option WorktreeInfo
  registry : Registry
  fs : List Str
  dbUpdates : List (Str × Str)
  pushes : List Str

/-- worktree.rs `worktree_create`.  Directory creation of the parent
(`fs::create_dir_all`) is modelled as succeeding; the in-worktree file
hygiene (`ensure_codex_log_ignored`, `ensure_claude_auto_approve`)
touches only files inside the new worktree and is not modelled. -/
def worktree_create (env : CreateEnv) (st : WtState) (args : CreateArgs) : CreateOutcome :=
  let project_path := rustTrim args.project_path
  let task_name := rustTrim args.task_name
  let project_id := rustTrim args.project_id
  if project_path = [] ∨ task_name = [] ∨ project_id = [] then
    ⟨false, some "Missing required parameters".data, none, st.registry, st.fs, [], []⟩
  else
    let slugged := slugify task_name
    let template := branch_template env.settings
    let branch_name := render_branch_template template slugged env.timestamp
    let worktree_path := project_path ++ "/../worktrees/".data ++ slugged ++ '-' :: env.timestamp
    if st.fs.contains worktree_path then
      ⟨false, some ("Worktree directory already exists: ".data ++ worktree_path),
        none, st.registry, st.fs, [], []⟩
    else
      match env.projectRow with
      | .error err => ⟨false, some err, none, st.registry, st.fs, [], []⟩
      | .ok row =>
        match resolve_project_base_ref env.git row with
        | .error err => ⟨false, some err, none, st.registry, st.fs, [], []⟩
        | .ok base_ref =>
          let fo := fetch_base_ref_with_fallback env.git project_id base_ref
          match fo.result with
          | .error err => ⟨false, some err, none, st.registry, st.fs, fo.dbUpdates, []⟩
          | .ok fetched =>
            match env.worktreeAdd branch_name worktree_path fetched.full_ref with
            | .error err => ⟨false, some err, none, st.registry, st.fs, fo.dbUpdates, []⟩
            | .ok _ =>
              let fs' := if env.addCreatesDir then worktree_path :: st.fs else st.fs
              if fs'.contains worktree_path = false then
                ⟨false, some ("Worktree directory was not created: ".data ++ worktree_path),
                  none, st.registry, fs', fo.dbUpdates, []⟩
              else
                let info : WorktreeInfo := {
                  id := stable_id_from_path env.canon worktree_path,
                  name := task_name,
                  branch := branch_name,
                  path := worktree_path,
                  project_id := project_id,
                  status := "active".data,
                  created_at := env.now,
                  last_activity := none }
                let registry' := regInsert st.registry info.id info
                let pushes := if should_push_on_create env.settings then [branch_name] else []
                ⟨true, none, some info, registry', fs', fo.dbUpdates, pushes⟩

/-- worktree.rs `WorktreeCreateFromBranchArgs`. -/
structure CreateFromBranchArgs where
  project_path : Str
  task_name : Str
  branch_name : Str
  project_id : Str
  worktree_path : Option Str

/-- The collaborators consulted by `create_worktree_from_branch`. -/
structure FromBranchEnv where
  canon : Str → Option Str
  /-- result of `git worktree add <path> <branch>`. -/
  worktreeAddExisting : Str → Str → Except Str Unit
  addCreatesDir : Bool
  timestamp : Str
  now : Str

/-- Outcome of `create_worktree_from_branch`. -/
structure FromBranchOutcome where
  result : Except Str WorktreeInfo
  registry : Registry
  fs : List Str

/-- worktree.rs `create_worktree_from_branch`. -/
def create_worktree_from_branch (env : FromBranchEnv) (st : WtState)
    (args : CreateFromBranchArgs) : FromBranchOutcome :=
  let project_path := rustTrim args.project_path
  let branch_name := rustTrim args.branch_name
  let project_id := rustTrim args.project_id
  if project_path = [] ∨ branch_name = [] ∨ project_id = [] then
    ⟨.error "Missing required parameters".data, st.registry, st.fs⟩
  else
    let normalized_name :=
      if rustTrim args.task_name = [] then
        branch_name.map (fun c => if c = '/' then '-' else c)
      else rustTrim args.task_name
    let slugged := slugify normalized_name
    let default_path :=
      project_path ++ "/../worktrees/".data ++ slugged ++ '-' :: env.timestamp
    let worktree_path := args.worktree_path.getD default_path
    if st.fs.contains worktree_path then
      ⟨.error ("Worktree directory already exists: ".data ++ worktree_path),
        st.registry, st.fs⟩
    else
      match env.worktreeAddExisting worktree_path branch_name with
      | .error err =>
        ⟨.error ("Failed to create worktree for branch ".data ++ branch_name
          ++ ": ".data ++ err), st.registry, st.fs⟩
      | .ok _ =>
        let fs' := if env.addCreatesDir then worktree_path :: st.fs else st.fs
        if fs'.contains worktree_path = false then
          ⟨.error ("Worktree directory was not created: ".data ++ worktree_path),
            st.registry, fs'⟩
        else
          let info : WorktreeInfo := {
            id := stable_id_from_path env.canon worktree_path,
            name := normalized_name,
            branch := branch_name,
            path := worktree_path,
            project_id := project_id,
            status := "active".data,
            created_at := env.now,
            last_activity := none }
          ⟨.ok info, regInsert st.registry info.id info, fs'⟩

/-- Registry states reachable through the lifecycle operations with a
fixed path-canonicalization function: the empty registry of a fresh
process, and the registries produced by create, create-from-branch and
remove steps from reachable ones (with any filesystem state, arguments
and collaborator outcomes). -/
inductive Reachable (canon : Str → Option Str) : Registry → Prop where
  | empty : Reachable canon []
  | createStep (env : CreateEnv) (st : WtState) (args : CreateArgs)
      (hc : env.canon = canon) (h : Reachable canon st.registry) :
      Reachable canon (worktree_create env st args).registry
  | fromBranchStep (env : FromBranchEnv) (st : WtState) (args : CreateFromBranchArgs)
      (hc : env.canon = canon) (h : Reachable canon st.registry) :
      Reachable canon (create_worktree_from_branch env st args).registry
  | removeStep (st : WtState) (args : RemoveArgs) (h : Reachable canon st.registry) :
      Reachable canon (worktree_remove_internal st args).state.registry

/-! ### The refuted claims, formalized as stated -/

/-- The managed test as the spec states it: a managed prefix followed
by `/`, `-`, `.` or `_`, or the branch equal to the prefix outright. -/
def specManagedBranch (prefixes : List Str) (branch : Str) : Prop :=
  ∃ pf ∈ prefixes,
    (pf ++ "/".data).isPrefixOf branch = true
    ∨ (pf ++ "-".data).isPrefixOf branch = true
    ∨ (pf ++ ".".data).isPrefixOf branch = true
    ∨ (pf ++ "_".data).isPrefixOf branch = true
    ∨ branch = pf

/-- Claim C2 as stated: a parsed worktree-list entry is kept exactly
when the spec's managed test accepts its branch or its path is
registered. -/
def claimC2 : Prop :=
  ∀ (canon : Str → Option Str) (template : Str) (tracked : Registry)
    (project_path now line wpath branch : Str),
    parseWorktreeLine line = some (wpath, branch) →
    (processWorktreeLine canon (managedPrefixes template) tracked project_path now line ≠ none
      ↔ specManagedBranch (managedPrefixes template) branch
        ∨ (tracked.map (fun kv => kv.2)).find? (fun wt => wt.path == wpath) ≠ none)

/-- Claim C3 as stated: after any successful removal, repeating the
same call succeeds again and performs no directory deletion. -/
def claimC3 : Prop :=
  ∀ (st : WtState) (args : RemoveArgs),
    (worktree_remove_internal st args).success = true →
    (worktree_remove_internal (worktree_remove_internal st args).state args).success = true
    ∧ (worktree_remove_internal (worktree_remove_internal st args).state args).rmdirCalls = []

/-- The five signatures as the claim (and spec) lists them: the fourth
lacks the code's "fatal: the " prefix. -/
def specMissingRefPatterns : List Str :=
  ["couldn".data ++ Char.ofNat 39 :: "t find remote ref".data,
   "could not find remote ref".data,
   "remote ref does not exist".data,
   "remote end hung up unexpectedly".data,
   "no such ref was fetched".data]

/-- Claim C6 as stated: the classifier accepts exactly the messages
containing one of the five spec signatures, case-insensitively. -/
def claimC6 : Prop :=
  ∀ msg : Str,
    is_missing_remote_ref_error msg = true ↔
      specMissingRefPatterns.any (fun pat => containsStr pat (msg.map Char.toLower)) = true

/-- Whether a string has any whitespace character. -/
def hasWhitespaceChar (s : Str) : Bool := s.any Char.isWhitespace

/-- Claim C7 as stated: when the stored base ref neither parses nor
verifies, the stored git branch is used exactly when it is non-empty
after trimming and free of whitespace. -/
def claimC7 : Prop :=
  ∀ (env : GitEnv) (row : ProjectSettingsRow) (br gb : Str),
    row.base_ref = some br →
    parse_base_ref env br = none →
    (rustTrim br = [] ∨ env.verifyLocalBranch (rustTrim br) = false) →
    row.git_branch = some gb →
    ∃ info, resolve_project_base_ref env row = Except.ok info ∧
      info.branch = (if rustTrim gb ≠ [] ∧ hasWhitespaceChar (rustTrim gb) = false
        then rustTrim gb else get_default_branch env.remoteShowOriginOut)

/-! ### Concrete fixtures used by witnesses and counterexamples -/

/-- A git environment whose base-ref fetch fails with a missing-ref
error and whose fallback fetch of origin/main succeeds. -/
def c1EnvFix : GitEnv where
  remoteListOut := none
  remoteShowOriginOut := some "  HEAD branch: main".data
  verifyLocalBranch := fun _ => false
  fetch := fun r b =>
    if r = "origin".data ∧ b = "main".data then .ok ()
    else .error "fatal: could not find remote ref feat".data

/-- A merge environment whose merge step fails. -/
def c4EnvFix : MergeEnv where
  remoteShowOriginOut := none
  checkout := fun b => if b = "main".data then .ok () else .error "checkout failed".data
  mergeBranch := fun _ => .error "merge conflict".data

/-- A tracked workspace record. -/
def c4WtFix : WorktreeInfo where
  id := "wt-1".data
  name := "task".data
  branch := "agent/x".data
  path := "/w/x".data
  project_id := "p".data
  status := "active".data
  created_at := "now".data
  last_activity := none

/-- A state tracking `c4WtFix` whose directory exists on disk. -/
def c4StFix : WtState := ⟨[("wt-1".data, c4WtFix)], ["/w/x".data]⟩

/-- A git environment where nothing parses, verifies or answers. -/
def c7EnvFix : GitEnv where
  remoteListOut := none
  remoteShowOriginOut := none
  verifyLocalBranch := fun _ => false
  fetch := fun _ _ => .ok ()

/-- A settings row whose git branch contains a tab (whitespace that is
not a space). -/
def c7RowFix : ProjectSettingsRow where
  git_remote := none
  git_branch := some "a\tb".data
  base_ref := some "x".data

/-- A settings row with a clean git branch. -/
def c7RowFix2 : ProjectSettingsRow where
  git_remote := none
  git_branch := some "dev".data
  base_ref := some "nope".data

/-- A create environment whose collaborators all succeed: empty
settings store, empty project row, every fetch succeeding, and
`git worktree add` creating the directory. -/
def cEnvOkFix : CreateEnv where
  canon := fun _ => none
  settings := JValue.obj []
  projectRow := Except.ok ⟨none, none, none⟩
  git := {
    remoteListOut := none
    remoteShowOriginOut := none
    verifyLocalBranch := fun _ => false
    fetch := fun _ _ => .ok () }
  worktreeAdd := fun _ _ _ => .ok ()
  addCreatesDir := true
  timestamp := "123".data
  now := "t0".data

/-- Create arguments for the fixtures. -/
def cArgsFix : CreateArgs := ⟨"p".data, "Fix Bug".data, "pid".data, none⟩

/-! ## Theorems -/

/-- Evaluation of `Char.ofNat` at valid code points. -/
theorem char_toNat_ofNat_of_valid {m : Nat} (h : m.isValidChar) :
    (Char.ofNat m).toNat = m := by
  rw [Char.ofNat, dif_pos h]
  rfl

/-- Lowercasing after uppercasing agrees with lowercasing. -/
theorem toLower_toUpper (c : Char) : (c.toUpper).toLower = c.toLower := by
  by_cases h : c.toNat ≥ 97 ∧ c.toNat ≤ 122
  · have hv : Nat.isValidChar (c.toNat - 32) := Or.inl (by omega)
    have ht : (Char.ofNat (c.toNat - 32)).toNat = c.toNat - 32 :=
      char_toNat_ofNat_of_valid hv
    have h1 : c.toUpper = Char.ofNat (c.toNat - 32) := by
      simp only [Char.toUpper]
      rw [if_pos h]
    have h2 : c.toLower = c := by
      simp only [Char.toLower]
      rw [if_neg (by omega)]
    rw [h1, h2]
    simp only [Char.toLower]
    rw [ht, if_pos (by omega)]
    have hn : c.toNat - 32 + 32 = c.toNat := by omega
    rw [hn, Char.ofNat_toNat]
  · have h1 : c.toUpper = c := by
      simp only [Char.toUpper]
      rw [if_neg h]
    rw [h1]

/-- C1: on a fetch failure recognized as a missing-remote-ref error,
`fetch_base_ref_with_fallback` recomputes the default branch into the
fallback `origin/<defaultBranch>`; if the fallback's full ref equals
the original's it fails with the combined error and touches the DB
collaborator not at all, and otherwise, when the fallback fetch
succeeds, it persists the corrected full ref via the DB collaborator
exactly once and returns the fallback. -/
theorem fetch_fallback_spec (env : GitEnv) (pid : Str) (base : BaseRefInfo) (err : Str)
    (hfetch : env.fetch base.remote base.branch = .error err)
    (hmiss : is_missing_remote_ref_error err = true) :
    (("origin/".data ++ get_default_branch env.remoteShowOriginOut) = base.full_ref →
      fetch_base_ref_with_fallback env pid base =
        ⟨.error ("Failed to fetch ".data ++ base.full_ref ++ ": ".data ++ err), []⟩)
    ∧ (("origin/".data ++ get_default_branch env.remoteShowOriginOut) ≠ base.full_ref →
       env.fetch "origin".data (get_default_branch env.remoteShowOriginOut) = .ok () →
       fetch_base_ref_with_fallback env pid base =
         ⟨.ok ⟨"origin".data, get_default_branch env.remoteShowOriginOut,
               "origin/".data ++ get_default_branch env.remoteShowOriginOut⟩,
          [(pid, "origin/".data ++ get_default_branch env.remoteShowOriginOut)]⟩) := by
  constructor
  · intro heq
    simp only [fetch_base_ref_with_fallback, hfetch]
    rw [if_neg (fun hc => hc hmiss), if_pos heq]
  · intro hne hok
    simp only [fetch_base_ref_with_fallback, hfetch]
    rw [if_neg (fun hc => hc hmiss), if_neg hne, hok]

/-- Witness for C1 at a concrete environment: the base fetch of
origin/feat fails with a missing-ref error, the advertised HEAD branch
is main, the fallback fetch succeeds, and exactly one DB update is
recorded. -/
theorem fetch_fallback_spec_witness :
    fetch_base_ref_with_fallback c1EnvFix "proj1".data
      ⟨"origin".data, "feat".data, "origin/feat".data⟩ =
    ⟨.ok ⟨"origin".data, get_default_branch c1EnvFix.remoteShowOriginOut,
          "origin/".data ++ get_default_branch c1EnvFix.remoteShowOriginOut⟩,
     [("proj1".data, "origin/".data ++ get_default_branch c1EnvFix.remoteShowOriginOut)]⟩ :=
  (fetch_fallback_spec c1EnvFix "proj1".data
    ⟨"origin".data, "feat".data, "origin/feat".data⟩
    "fatal: could not find remote ref feat".data rfl (by decide)).2
    (by decide) rfl

/-- C4: with a tracked workspace, `worktree_merge` propagates a
checkout or merge failure unchanged, leaves the state (registry
included) untouched, and does not invoke the removal helper. -/
theorem merge_failure_preserves (env : MergeEnv) (st : WtState) (pp wid : Str)
    (wt : WorktreeInfo) (hpp : ¬ rustTrim pp = [])
    (hlook : regLookup st.registry wid = some wt) :
    (∀ err, env.checkout (get_default_branch env.remoteShowOriginOut) = .error err →
      worktree_merge env st pp wid = ⟨false, some err, st, false⟩)
    ∧ (∀ err, env.checkout (get_default_branch env.remoteShowOriginOut) = .ok () →
        env.mergeBranch wt.branch = .error err →
        worktree_merge env st pp wid = ⟨false, some err, st, false⟩) := by
  constructor
  · intro err hck
    simp only [worktree_merge, if_neg hpp, hlook, hck]
  · intro err hck hmg
    simp only [worktree_merge, if_neg hpp, hlook, hck, hmg]

/-- Witness for C4 at a concrete state: the merge step fails with a
conflict and the call returns that error with the registry intact and
no removal invoked. -/
theorem merge_failure_preserves_witness :
    worktree_merge c4EnvFix c4StFix "p".data "wt-1".data =
      ⟨false, some "merge conflict".data, c4StFix, false⟩ :=
  (merge_failure_preserves c4EnvFix c4StFix "p".data "wt-1".data c4WtFix
    (by decide) rfl).2 "merge conflict".data rfl rfl

/-- Counterexample to C6 as stated: the message
"remote end hung up unexpectedly" contains the fourth spec signature,
yet the classifier rejects it (the code requires the longer
"fatal: the remote end hung up unexpectedly"). -/
theorem missing_ref_claim_false : ¬ claimC6 := by
  intro h
  have h1 := (h "remote end hung up unexpectedly".data).mpr (by decide)
  exact absurd h1 (by decide)

/-- C6 amended: the classifier accepts exactly the messages whose
lowercase form contains one of the five code signatures (the fourth
being "fatal: the remote end hung up unexpectedly"), and it is
insensitive to ASCII case changes of the message. -/
theorem missing_ref_classifier_spec (msg : Str) :
    (is_missing_remote_ref_error msg = true ↔
      missingRefPatterns.any (fun pat => containsStr pat (msg.map Char.toLower)) = true)
    ∧ is_missing_remote_ref_error (msg.map Char.toUpper) = is_missing_remote_ref_error msg := by
  constructor
  · exact Iff.rfl
  · simp only [is_missing_remote_ref_error, List.map_map]
    have hcomp : (Char.toLower ∘ Char.toUpper) = Char.toLower := by
      funext c
      exact toLower_toUpper c
    rw [hcomp]

/-- Witness for the amended C6 at a concrete message: the classifier is
an exact case-insensitive scan for the five code signatures. -/
theorem missing_ref_classifier_spec_witness :
    (is_missing_remote_ref_error "Fatal: The Remote End Hung Up Unexpectedly".data = true ↔
      missingRefPatterns.any (fun pat => containsStr pat
        ("Fatal: The Remote End Hung Up Unexpectedly".data.map Char.toLower)) = true)
    ∧ is_missing_remote_ref_error
        ("Fatal: The Remote End Hung Up Unexpectedly".data.map Char.toUpper) =
      is_missing_remote_ref_error "Fatal: The Remote End Hung Up Unexpectedly".data :=
  missing_ref_classifier_spec "Fatal: The Remote End Hung Up Unexpectedly".data

/-- Counterexample to C7 as stated: with a stored git branch containing
a tab (whitespace but not a space), the resolver still uses it, instead
of querying the remote HEAD as the claim requires. -/
theorem resolve_whitespace_claim_false : ¬ claimC7 := by
  intro h
  obtain ⟨info, heq, hbranch⟩ :=
    h c7EnvFix c7RowFix "x".data "a\tb".data rfl (by decide) (Or.inr rfl) rfl
  have hres : resolve_project_base_ref c7EnvFix c7RowFix =
      Except.ok ⟨"origin".data, "a\tb".data, "origin/a\tb".data⟩ := rfl
  rw [hres] at heq
  injection heq with hinfo
  rw [← hinfo] at hbranch
  exact absurd hbranch (by decide)

/-- C7 amended: when the stored base ref neither parses nor verifies as
a local branch, resolution falls back to the stored git branch exactly
when it is non-empty after trimming and contains no space character
(other whitespace, such as a tab, does not disqualify it); otherwise it
uses the remote's advertised HEAD branch, which defaults to "main" when
the remote-info command fails. -/
theorem resolve_fallback_spec (env : GitEnv) (row : ProjectSettingsRow) (br : Str)
    (hbr : row.base_ref = some br)
    (hparse : parse_base_ref env br = none)
    (hlocal : rustTrim br = [] ∨ env.verifyLocalBranch (rustTrim br) = false) :
    ∃ info, resolve_project_base_ref env row = Except.ok info ∧
      info.branch = (match row.git_branch with
        | some gb =>
          if rustTrim gb ≠ [] ∧ ¬ (rustTrim gb).contains ' ' then rustTrim gb
          else get_default_branch env.remoteShowOriginOut
        | none => get_default_branch env.remoteShowOriginOut)
      ∧ (env.remoteShowOriginOut = none →
          get_default_branch env.remoteShowOriginOut = "main".data) := by
  have hcond : ¬ (rustTrim br ≠ [] ∧ env.verifyLocalBranch (rustTrim br) = true) := by
    rcases hlocal with h | h
    · exact fun hc => hc.1 h
    · intro hc
      rw [h] at hc
      exact Bool.false_ne_true hc.2
  simp only [resolve_project_base_ref, hbr, hparse, if_neg hcond]
  exact ⟨_, rfl, rfl, fun h => by rw [h]; rfl⟩

/-- Witness for the amended C7 at a concrete row: the base ref "nope"
neither parses nor verifies, and the clean stored branch "dev" is
chosen. -/
theorem resolve_fallback_spec_witness :
    ∃ info, resolve_project_base_ref c7EnvFix c7RowFix2 = Except.ok info ∧
      info.branch = (match c7RowFix2.git_branch with
        | some gb =>
          if rustTrim gb ≠ [] ∧ ¬ (rustTrim gb).contains ' ' then rustTrim gb
          else get_default_branch c7EnvFix.remoteShowOriginOut
        | none => get_default_branch c7EnvFix.remoteShowOriginOut)
      ∧ (c7EnvFix.remoteShowOriginOut = none →
          get_default_branch c7EnvFix.remoteShowOriginOut = "main".data) :=
  resolve_fallback_spec c7EnvFix c7RowFix2 "nope".data rfl (by decide) (Or.inr rfl)

/-- Each `toBytesBE` call yields exactly its requested number of
bytes. -/
theorem toBytesBE_length (k w : Nat) : (toBytesBE k w).length = k := by
  induction k generalizing w with
  | zero => rfl
  | succ n ih => simp [toBytesBE, ih]

/-- The SHA-1 digest is 20 bytes for every message. -/
theorem sha1_length (msg : List Nat) : (sha1 msg).length = 20 := by
  simp only [sha1]
  set t := List.foldl sha1Chunk
    (0x67452301, 0xEFCDAB89, 0x98BADCFE, 0x10325476, 0xC3D2E1F0)
    (chunks64 (sha1Pad msg)) with ht
  obtain ⟨a, b, c, d, e⟩ := t
  simp [toBytesBE_length]

/-- Hex rendering doubles the length. -/
theorem hexEncode_length (bytes : List Nat) : (hexEncode bytes).length = 2 * bytes.length := by
  induction bytes with
  | nil => rfl
  | cons b rest ih =>
    simp only [hexEncode, List.map_cons, List.flatten_cons, List.length_append,
      List.length_cons, List.length_nil] at ih ⊢
    omega

/-- C9: the stable identity is "wt-" followed by the first 12 hex
characters of the 160-bit digest of the canonicalized path (the path as
given when canonicalization fails); the digest's hex form always has 40
characters, and the identity is determined by the canonicalized path,
so two textually different paths with the same canonical form get the
same id. -/
theorem stable_id_spec (canon : Str → Option Str) (p : Str) :
    stable_id_from_path canon p =
      "wt-".data ++ (hexEncode (sha1 (utf8Encode ((canon p).getD p)))).take 12
    ∧ (hexEncode (sha1 (utf8Encode ((canon p).getD p)))).length = 40
    ∧ (∀ q, (canon p).getD p = (canon q).getD q →
        stable_id_from_path canon p = stable_id_from_path canon q) := by
  have hlen : ∀ s : Str, (hexEncode (sha1 (utf8Encode s))).length = 40 := by
    intro s
    rw [hexEncode_length, sha1_length]
  refine ⟨?_, hlen _, ?_⟩
  · simp only [stable_id_from_path]
    rw [hlen]
    norm_num
  · intro q hq
    simp only [stable_id_from_path, hq]

/-- Witness for C9: a canonicalization mapping both "a/./b" and "a/b"
to the same canonical path gives both the same stable id. -/
theorem stable_id_spec_witness :
    stable_id_from_path
      (fun s => if s = "a/./b".data ∨ s = "a/b".data then some "/r/a/b".data else none)
      "a/./b".data =
    stable_id_from_path
      (fun s => if s = "a/./b".data ∨ s = "a/b".data then some "/r/a/b".data else none)
      "a/b".data :=
  (stable_id_spec _ "a/./b".data).2.2 "a/b".data (by decide)

/-- A collapse pass never lengthens the string. -/
theorem replacePair_length_le (a : Char) : ∀ l : Str, (replacePair a l).length ≤ l.length
  | [] => Nat.le_refl _
  | [_] => Nat.le_refl _
  | x :: y :: rest => by
    simp only [replacePair]
    split
    · have h := replacePair_length_le a rest
      simp only [List.length_cons]
      omega
    · have h := replacePair_length_le a (y :: rest)
      simp only [List.length_cons] at h ⊢
      omega

/-- A collapse pass strictly shortens a string containing the pair. -/
theorem replacePair_length_lt (a : Char) : ∀ l : Str, containsStr [a, a] l = true →
    (replacePair a l).length < l.length
  | [], h => by simp [containsStr] at h
  | [x], h => by simp [containsStr, List.isPrefixOf] at h
  | x :: y :: rest, h => by
    simp only [replacePair]
    split
    · have hle := replacePair_length_le a rest
      simp only [List.length_cons]
      omega
    · rename_i hxy
      have hstep : ([a, a].isPrefixOf (x :: y :: rest) || containsStr [a, a] (y :: rest))
          = true := h
      have hrec : containsStr [a, a] (y :: rest) = true := by
        rcases (Bool.or_eq_true _ _).mp hstep with hpre | hr
        · exfalso
          simp only [List.isPrefixOf, Bool.and_eq_true, beq_iff_eq] at hpre
          exact hxy ⟨hpre.1.symm, hpre.2.1.symm⟩
        · exact hr
      have hlt := replacePair_length_lt a (y :: rest) hrec
      simp only [List.length_cons] at hlt ⊢
      omega

/-- Absence of an adjacent equal pair, phrased as a chain condition. -/
theorem containsStr_pair_eq_false_iff (a : Char) (l : Str) :
    containsStr [a, a] l = false ↔ l.Chain' (fun x y => ¬(x = a ∧ y = a)) := by
  induction l with
  | nil => simp [containsStr]
  | cons x rest ih =>
    cases rest with
    | nil => simp [containsStr, List.isPrefixOf]
    | cons y rest2 =>
      have hunf : containsStr [a, a] (x :: y :: rest2) =
          ([a, a].isPrefixOf (x :: y :: rest2) || containsStr [a, a] (y :: rest2)) := rfl
      rw [hunf, Bool.or_eq_false_iff, List.chain'_cons]
      constructor
      · rintro ⟨hpre, hrest⟩
        refine ⟨?_, ih.mp hrest⟩
        rintro ⟨hx, hy⟩
        subst hx
        subst hy
        simp [List.isPrefixOf] at hpre
      · rintro ⟨hxy, hch⟩
        refine ⟨?_, ih.mpr hch⟩
        cases hb : ([a, a].isPrefixOf (x :: y :: rest2)) with
        | false => rfl
        | true =>
          exfalso
          simp only [List.isPrefixOf, Bool.and_eq_true, beq_iff_eq] at hb
          exact hxy ⟨hb.1.symm, hb.2.1.symm⟩

/-- With enough fuel, the collapse loop reaches its fixed point: no
adjacent pair remains. -/
theorem collapseRepeatsAux_no_pair (a : Char) :
    ∀ (fuel : Nat) (l : Str), l.length < fuel →
      containsStr [a, a] (collapseRepeatsAux a fuel l) = false := by
  intro fuel
  induction fuel with
  | zero => intro l h; exact absurd h (Nat.not_lt_zero _)
  | succ n ih =>
    intro l h
    simp only [collapseRepeatsAux]
    by_cases hc : containsStr [a, a] l = true
    · rw [if_pos hc]
      have hlt := replacePair_length_lt a l hc
      exact ih _ (by omega)
    · rw [if_neg hc]
      simp only [Bool.not_eq_true] at hc
      exact hc

/-- A collapse pass keeps the head of the string. -/
theorem replacePair_head? (a : Char) : ∀ l : Str, (replacePair a l).head? = l.head?
  | [] => rfl
  | [_] => rfl
  | x :: y :: rest => by
    simp only [replacePair]
    split
    · rename_i hxy
      simp [hxy.1]
    · simp

/-- Collapsing pairs of `a` cannot create an adjacent pair of a
different character `b`. -/
theorem replacePair_chain' (a b : Char) (hab : ¬ a = b) :
    ∀ l : Str, l.Chain' (fun x y => ¬(x = b ∧ y = b)) →
      (replacePair a l).Chain' (fun x y => ¬(x = b ∧ y = b))
  | [], _ => by simp [replacePair]
  | [_], _ => by simp [replacePair]
  | x :: y :: rest, h => by
    rw [List.chain'_cons] at h
    simp only [replacePair]
    split
    · rename_i hxy
      rw [List.chain'_cons']
      refine ⟨fun z _ hc => hab hc.1, ?_⟩
      exact replacePair_chain' a b hab rest h.2.tail
    · rw [List.chain'_cons']
      constructor
      · intro z hz
        rw [replacePair_head? a (y :: rest)] at hz
        simp only [List.head?_cons, Option.mem_def, Option.some.injEq] at hz
        subst hz
        exact h.1
      · exact replacePair_chain' a b hab (y :: rest) h.2

/-- The collapse loop for `a` cannot create an adjacent pair of a
different character `b`. -/
theorem collapseRepeatsAux_chain' (a b : Char) (hab : ¬ a = b) :
    ∀ (fuel : Nat) (l : Str), l.Chain' (fun x y => ¬(x = b ∧ y = b)) →
      (collapseRepeatsAux a fuel l).Chain' (fun x y => ¬(x = b ∧ y = b)) := by
  intro fuel
  induction fuel with
  | zero => intro l h; exact h
  | succ n ih =>
    intro l h
    simp only [collapseRepeatsAux]
    split
    · exact ih _ (replacePair_chain' a b hab l h)
    · exact h

/-- Trailing trimming yields a prefix. -/
theorem dropTrailing_isPre (p : Char → Bool) (l : Str) : dropTrailing p l <+: l := by
  rw [← List.reverse_suffix, dropTrailing, List.reverse_reverse]
  exact List.dropWhile_suffix p

/-- Two-sided trimming yields a contiguous substring. -/
theorem trimMatches_isInf (p : Char → Bool) (l : Str) : trimMatches p l <:+: l :=
  (dropTrailing_isPre p (l.dropWhile p)).isInfix.trans (List.dropWhile_suffix p).isInfix

/-- The head of a trimmed string never satisfies the trimming
predicate. -/
theorem head?_trimMatches (p : Char → Bool) (l : Str) (c : Char)
    (h : (trimMatches p l).head? = some c) : p c = false := by
  rw [trimMatches] at h
  obtain ⟨t, ht⟩ := dropTrailing_isPre p (l.dropWhile p)
  have hm : (l.dropWhile p).head? = some c := by
    rw [← ht, List.head?_append, h]
    rfl
  have hdw := List.head?_dropWhile_not p l
  rw [hm] at hdw
  exact hdw

/-- The last character of a trimmed string never satisfies the trimming
predicate. -/
theorem getLast?_trimMatches (p : Char → Bool) (l : Str) (c : Char)
    (h : (trimMatches p l).getLast? = some c) : p c = false := by
  rw [trimMatches, dropTrailing, List.getLast?_eq_head?_reverse, List.reverse_reverse] at h
  have hdw := List.head?_dropWhile_not p (l.dropWhile p).reverse
  rw [h] at hdw
  exact hdw

/-- The sanitized branch name never contains "//", never starts or ends
with `.`, `/` or `-`, and is never empty or "HEAD". -/
theorem sanitize_branch_name_props (name : Str) :
    containsStr "//".data (sanitize_branch_name name) = false
    ∧ (sanitize_branch_name name).head?.all
        (fun c => !(decide (c = '.' ∨ c = '/' ∨ c = '-'))) = true
    ∧ (sanitize_branch_name name).getLast?.all
        (fun c => !(decide (c = '.' ∨ c = '/' ∨ c = '-'))) = true
    ∧ sanitize_branch_name name ≠ []
    ∧ sanitize_branch_name name ≠ "HEAD".data := by
  set n2 := ((name.map fun c => if c.isWhitespace then '-' else c).map fun c =>
    if ¬(c.isAlphanum ∨ c = '.' ∨ c = '_' ∨ c = '/' ∨ c = '-') then '-' else c) with hn2
  set trimmed := trimMatches (fun c => c = '.' ∨ c = '/' ∨ c = '-')
    (collapseRepeats '-' (collapseRepeats '/' n2)) with htr
  have hs : sanitize_branch_name name =
      if trimmed = [] ∨ trimmed = "HEAD".data then "agent/".data ++ slugify "task".data
      else trimmed := rfl
  rw [hs]
  by_cases hc : trimmed = [] ∨ trimmed = "HEAD".data
  · rw [if_pos hc]
    exact ⟨by decide, by decide, by decide, by decide, by decide⟩
  · rw [if_neg hc]
    push_neg at hc
    have h3 : containsStr ['/', '/'] (collapseRepeats '/' n2) = false :=
      collapseRepeatsAux_no_pair '/' _ n2 (Nat.lt_succ_self _)
    have hch4 : (collapseRepeats '-' (collapseRepeats '/' n2)).Chain'
        (fun x y => ¬(x = '/' ∧ y = '/')) :=
      collapseRepeatsAux_chain' '-' '/' (by decide) _ _
        ((containsStr_pair_eq_false_iff '/' _).mp h3)
    have hch5 : trimmed.Chain' (fun x y => ¬(x = '/' ∧ y = '/')) :=
      hch4.infix (trimMatches_isInf _ _)
    refine ⟨(containsStr_pair_eq_false_iff '/' trimmed).mpr hch5, ?_, ?_, hc.1, hc.2⟩
    · cases hh : trimmed.head? with
      | none => rfl
      | some c =>
        have hp := head?_trimMatches _ _ _ hh
        simp only [Option.all_some]
        simp only [decide_eq_false_iff_not] at hp
        simp [hp]
    · cases hh : trimmed.getLast? with
      | none => rfl
      | some c =>
        have hp := getLast?_trimMatches _ _ _ hh
        simp only [Option.all_some]
        simp only [decide_eq_false_iff_not] at hp
        simp [hp]

/-- C5: for every template, slug and timestamp, the rendered branch
name contains no "//", has no leading or trailing `/`, `.` or `-`, and
is never empty or "HEAD" (the fallback "agent/" ++ slugify "task" is
used in those cases). -/
theorem branch_render_sanitized (template slug timestamp : Str) :
    containsStr "//".data (render_branch_template template slug timestamp) = false
    ∧ (render_branch_template template slug timestamp).head?.all
        (fun c => !(decide (c = '.' ∨ c = '/' ∨ c = '-'))) = true
    ∧ (render_branch_template template slug timestamp).getLast?.all
        (fun c => !(decide (c = '.' ∨ c = '/' ∨ c = '-'))) = true
    ∧ render_branch_template template slug timestamp ≠ []
    ∧ render_branch_template template slug timestamp ≠ "HEAD".data := by
  simp only [render_branch_template]
  exact sanitize_branch_name_props _

/-- Witness for C5 at the spec's example inputs: the default template
with slug "fix-bug" and timestamp "1700000000000" renders to a
sanitized branch name. -/
theorem branch_render_sanitized_witness :
    containsStr "//".data (render_branch_template "agent/{slug}-{timestamp}".data
        "fix-bug".data "1700000000000".data) = false
    ∧ (render_branch_template "agent/{slug}-{timestamp}".data
        "fix-bug".data "1700000000000".data).head?.all
        (fun c => !(decide (c = '.' ∨ c = '/' ∨ c = '-'))) = true
    ∧ (render_branch_template "agent/{slug}-{timestamp}".data
        "fix-bug".data "1700000000000".data).getLast?.all
        (fun c => !(decide (c = '.' ∨ c = '/' ∨ c = '-'))) = true
    ∧ render_branch_template "agent/{slug}-{timestamp}".data
        "fix-bug".data "1700000000000".data ≠ []
    ∧ render_branch_template "agent/{slug}-{timestamp}".data
        "fix-bug".data "1700000000000".data ≠ "HEAD".data :=
  branch_render_sanitized "agent/{slug}-{timestamp}".data
    "fix-bug".data "1700000000000".data

/-- The five-way prefix disjunction of the managed test collapses to
the bare prefix test, because `starts_with(pf)` subsumes the four
separator-specific checks. -/
theorem managed_disj_eq (pf branch s1 s2 s3 s4 : Str) :
    ((pf ++ s1).isPrefixOf branch
     || (pf ++ s2).isPrefixOf branch
     || pf.isPrefixOf branch
     || (pf ++ s3).isPrefixOf branch
     || (pf ++ s4).isPrefixOf branch) = pf.isPrefixOf branch := by
  cases hb : pf.isPrefixOf branch with
  | true => simp [hb]
  | false =>
    have hgen : ∀ s : Str, (pf ++ s).isPrefixOf branch = false := by
      intro s
      cases hps : (pf ++ s).isPrefixOf branch with
      | false => rfl
      | true =>
        exfalso
        have h1 : pf ++ s <+: branch := List.isPrefixOf_iff_prefix.mp hps
        have h2 : pf <+: pf ++ s := List.prefix_append pf s
        have h3 := List.isPrefixOf_iff_prefix.mpr (h2.trans h1)
        rw [hb] at h3
        exact Bool.false_ne_true h3
    simp [hb, hgen]

/-- The managed test accepts exactly the branches starting with some
managed prefix, separator or not. -/
theorem isManagedBranch_eq_any (prefixes : List Str) (branch : Str) :
    isManagedBranch prefixes branch = prefixes.any (fun pf => pf.isPrefixOf branch) := by
  simp only [isManagedBranch]
  induction prefixes with
  | nil => rfl
  | cons pf rest ih => simp only [List.any_cons, ih, managed_disj_eq]

/-- Counterexample to C2 as stated: the unregistered branch "agents"
starts with the managed prefix "agent" but with no separator and is not
equal to it, so the spec's test rejects it — yet the code treats the
entry as managed and keeps it. -/
theorem managed_claim_false : ¬ claimC2 := by
  intro h
  have h2 := h (fun _ => none) "agent/{slug}-{timestamp}".data [] "p".data "t".data
    "x [agents]".data "x".data "agents".data (by decide)
  rcases h2.mp (by decide) with hm | hf
  · exact absurd hm (by unfold specManagedBranch; decide)
  · exact hf rfl

/-- C2 amended: a parsed entry is omitted exactly when its branch does
not start with any managed prefix (bare `starts_with`, no separator
required) and its path is not registered; and the listing is the
line-by-line filter of the tool output by that test. -/
theorem list_managed_spec (canon : Str → Option Str) (template : Str)
    (tracked : Registry) (project_path now stdout line wpath branch : Str)
    (hparse : parseWorktreeLine line = some (wpath, branch)) :
    (processWorktreeLine canon (managedPrefixes template) tracked project_path now line = none
      ↔ (managedPrefixes template).any (fun pf => pf.isPrefixOf branch) = false
        ∧ (tracked.map (fun kv => kv.2)).find? (fun wt => wt.path == wpath) = none)
    ∧ list_worktrees_internal canon template tracked project_path now stdout =
        (rustLines stdout).filterMap
          (processWorktreeLine canon (managedPrefixes template) tracked project_path now) := by
  constructor
  · simp only [processWorktreeLine, hparse, isManagedBranch_eq_any]
    constructor
    · intro hnone
      by_contra hcon
      rw [if_neg hcon] at hnone
      cases hex : (tracked.map (fun kv => kv.2)).find? (fun wt => wt.path == wpath) with
      | some info => rw [hex] at hnone; simp at hnone
      | none => rw [hex] at hnone; simp at hnone
    · intro hcond
      rw [if_pos hcond]
  · rfl

/-- Witness for the amended C2 at a concrete line: "feature/x" starts
with no managed prefix and is unregistered, so the entry is omitted. -/
theorem list_managed_spec_witness :
    (processWorktreeLine (fun _ => none)
        (managedPrefixes "agent/{slug}-{timestamp}".data) [] "p".data "t".data
        "/w/a [feature/x]".data = none
      ↔ (managedPrefixes "agent/{slug}-{timestamp}".data).any
          (fun pf => pf.isPrefixOf "feature/x".data) = false
        ∧ (([] : Registry).map (fun kv => kv.2)).find?
            (fun wt => wt.path == "/w/a".data) = none)
    ∧ list_worktrees_internal (fun _ => none) "agent/{slug}-{timestamp}".data []
        "p".data "t".data [] =
        (rustLines []).filterMap
          (processWorktreeLine (fun _ => none)
            (managedPrefixes "agent/{slug}-{timestamp}".data) [] "p".data "t".data) :=
  list_managed_spec (fun _ => none) "agent/{slug}-{timestamp}".data [] "p".data "t".data
    [] "/w/a [feature/x]".data "/w/a".data "feature/x".data (by decide)

/-- Looking up a key just erased finds nothing. -/
theorem regLookup_erase_self (reg : Registry) (k : Str) :
    regLookup (regErase reg k) k = none := by
  simp only [regLookup, regErase]
  have hfind : List.find? (fun kv => kv.1 == k)
      (reg.filter (fun kv => kv.1 != k)) = none := by
    rw [List.find?_eq_none]
    intro kv hkv
    have hm := (List.mem_filter.mp hkv).2
    simpa using hm
  rw [hfind]
  rfl

/-- Filtering a path out leaves a list that no longer contains it. -/
theorem contains_filter_ne_self (l : List Str) (p : Str) :
    (l.filter (fun q => q != p)).contains p = false := by
  by_contra h
  simp only [Bool.not_eq_false] at h
  have hmem : p ∈ l.filter (fun q => q != p) := by
    simpa using h
  have := (List.mem_filter.mp hmem).2
  simp at this

/-- Evaluation of `worktree_remove_internal` on the main path: both
guards pass, the resolved path is `p`, the directory is deleted when
present, branch deletions are attempted, and the registry entry is
dropped when present. -/
theorem remove_result (st : WtState) (args : RemoveArgs) (p : Str)
    (hpp : ¬ rustTrim args.project_path = [])
    (hres : ((((regLookup st.registry args.worktree_id).map (fun wt => wt.path)).or
      args.worktree_path).getD []) = p)
    (hpr : ¬ rustTrim p = []) :
    worktree_remove_internal st args = ⟨true, none,
      ⟨(if (regLookup st.registry args.worktree_id).isSome then
          regErase st.registry args.worktree_id else st.registry),
       (if st.fs.contains p then st.fs.filter (fun q => q != p) else st.fs)⟩,
      (if st.fs.contains p then [p] else []),
      (match ((regLookup st.registry args.worktree_id).map (fun wt => wt.branch)).or args.branch with
       | some branch => [branch]
       | none => []),
      (match ((regLookup st.registry args.worktree_id).map (fun wt => wt.branch)).or args.branch with
       | some branch =>
         [match stripOnce "origin/".data branch with
          | some stripped => stripped
          | none => branch]
       | none => [])⟩ := by
  simp only [worktree_remove_internal, if_neg hpp, hres, if_neg hpr]

/-- Counterexample to C3 as stated: when the path was resolvable only
through the registry entry, the second call cannot resolve a path and
fails with "Worktree path not provided" instead of succeeding. -/
theorem remove_idempotent_claim_false : ¬ claimC3 := by
  intro h
  have h2 := h
    ⟨[("wt-1".data, ⟨"wt-1".data, "t".data, "agent/x".data, "/w/x".data, "p".data,
        "active".data, "n".data, none⟩)], ["/w/x".data]⟩
    ⟨"p".data, "wt-1".data, none, none⟩ (by decide)
  exact absurd h2.1 (by decide)

/-- C3 amended: removal is idempotent when a target path stays
resolvable on the second call — with the worktree path passed
explicitly (and agreeing with any registry entry), a second removal of
the same id succeeds, performs no directory deletion, and leaves the
state unchanged.  When the path was resolvable only via the registry
entry, the second call instead fails with "Worktree path not
provided". -/
theorem remove_idempotent_with_path (st : WtState) (args : RemoveArgs) (p : Str)
    (hpath : args.worktree_path = some p)
    (hreg : ∀ wt, regLookup st.registry args.worktree_id = some wt → wt.path = p)
    (hsucc : (worktree_remove_internal st args).success = true) :
    (worktree_remove_internal (worktree_remove_internal st args).state args).success = true
    ∧ (worktree_remove_internal (worktree_remove_internal st args).state args).rmdirCalls = []
    ∧ (worktree_remove_internal (worktree_remove_internal st args).state args).state =
        (worktree_remove_internal st args).state := by
  by_cases hpp : rustTrim args.project_path = []
  · exfalso
    simp only [worktree_remove_internal, if_pos hpp] at hsucc
    simp at hsucc
  have hpath1 : ((((regLookup st.registry args.worktree_id).map (fun wt => wt.path)).or
      args.worktree_path).getD []) = p := by
    cases hex : regLookup st.registry args.worktree_id with
    | some wt => simp [Option.or, hreg wt hex]
    | none => simp [Option.or, hpath]
  by_cases hpr : rustTrim p = []
  · exfalso
    simp only [worktree_remove_internal, if_neg hpp, hpath1, if_pos hpr] at hsucc
    simp at hsucc
  have h1 := remove_result st args p hpp hpath1 hpr
  have hlook1 : regLookup
      (if (regLookup st.registry args.worktree_id).isSome then
        regErase st.registry args.worktree_id else st.registry)
      args.worktree_id = none := by
    by_cases hex : (regLookup st.registry args.worktree_id).isSome
    · rw [if_pos hex]
      exact regLookup_erase_self _ _
    · rw [if_neg hex]
      simpa using hex
  have hfs1 : (if st.fs.contains p then st.fs.filter (fun q => q != p) else st.fs).contains p
      = false := by
    by_cases hod : st.fs.contains p = true
    · rw [if_pos hod]
      exact contains_filter_ne_self _ _
    · rw [if_neg hod]
      simpa using hod
  have hpath2 : ((((regLookup
      (if (regLookup st.registry args.worktree_id).isSome then
        regErase st.registry args.worktree_id else st.registry)
      args.worktree_id).map (fun wt => wt.path)).or args.worktree_path).getD []) = p := by
    rw [hlook1]
    simp [Option.or, hpath]
  have h2 := remove_result
    ⟨(if (regLookup st.registry args.worktree_id).isSome then
        regErase st.registry args.worktree_id else st.registry),
     (if st.fs.contains p then st.fs.filter (fun q => q != p) else st.fs)⟩
    args p hpp hpath2 hpr
  have hstate1 : (worktree_remove_internal st args).state =
      ⟨(if (regLookup st.registry args.worktree_id).isSome then
          regErase st.registry args.worktree_id else st.registry),
       (if st.fs.contains p then st.fs.filter (fun q => q != p) else st.fs)⟩ := by
    rw [h1]
  rw [hstate1, h2]
  refine ⟨rfl, ?_, ?_⟩
  · simp only [hfs1]
    rfl
  · simp only [hfs1, hlook1]
    rfl

/-- Witness for the amended C3: with the path passed explicitly and an
empty registry, removing twice succeeds both times, deletes no
directory the second time, and leaves the state fixed. -/
theorem remove_idempotent_with_path_witness :
    (worktree_remove_internal
      (worktree_remove_internal ⟨[], ["/w/x".data]⟩
        ⟨"p".data, "wt-1".data, some "/w/x".data, none⟩).state
      ⟨"p".data, "wt-1".data, some "/w/x".data, none⟩).success = true
    ∧ (worktree_remove_internal
        (worktree_remove_internal ⟨[], ["/w/x".data]⟩
          ⟨"p".data, "wt-1".data, some "/w/x".data, none⟩).state
        ⟨"p".data, "wt-1".data, some "/w/x".data, none⟩).rmdirCalls = []
    ∧ (worktree_remove_internal
        (worktree_remove_internal ⟨[], ["/w/x".data]⟩
          ⟨"p".data, "wt-1".data, some "/w/x".data, none⟩).state
        ⟨"p".data, "wt-1".data, some "/w/x".data, none⟩).state =
        (worktree_remove_internal ⟨[], ["/w/x".data]⟩
          ⟨"p".data, "wt-1".data, some "/w/x".data, none⟩).state :=
  remove_idempotent_with_path ⟨[], ["/w/x".data]⟩
    ⟨"p".data, "wt-1".data, some "/w/x".data, none⟩ "/w/x".data rfl
    (fun wt h => Option.noConfusion h) (by decide)

/-- The registry of a create call is either untouched (on any failure)
or extended by one record keyed by the stable id of its own path. -/
theorem create_registry_cases (env : CreateEnv) (st : WtState) (args : CreateArgs) :
    (worktree_create env st args).registry = st.registry
    ∨ ∃ (k : Str) (info : WorktreeInfo),
        (worktree_create env st args).registry = regInsert st.registry k info
        ∧ k = stable_id_from_path env.canon info.path := by
  simp only [worktree_create]
  repeat' split
  all_goals first
  | (left; rfl)
  | (right; refine ⟨_, _, rfl, ?_⟩; rfl)

/-- The registry of a create-from-branch call is either untouched or
extended by one record keyed by the stable id of its own path. -/
theorem fromBranch_registry_cases (env : FromBranchEnv) (st : WtState)
    (args : CreateFromBranchArgs) :
    (create_worktree_from_branch env st args).registry = st.registry
    ∨ ∃ (k : Str) (info : WorktreeInfo),
        (create_worktree_from_branch env st args).registry = regInsert st.registry k info
        ∧ k = stable_id_from_path env.canon info.path := by
  simp only [create_worktree_from_branch]
  repeat' split
  all_goals first
  | (left; rfl)
  | (right; refine ⟨_, _, rfl, ?_⟩; rfl)

/-- The registry of a remove call is either untouched or has exactly
the requested key erased. -/
theorem remove_registry_cases (st : WtState) (args : RemoveArgs) :
    (worktree_remove_internal st args).state.registry = st.registry
    ∨ (worktree_remove_internal st args).state.registry =
        regErase st.registry args.worktree_id := by
  simp only [worktree_remove_internal]
  split
  · exact Or.inl rfl
  · split
    · exact Or.inl rfl
    · by_cases hex : (regLookup st.registry args.worktree_id).isSome
      · rw [if_pos hex]
        exact Or.inr rfl
      · rw [if_neg hex]
        exact Or.inl rfl

/-- Inserting a record keyed by the stable id of its own path preserves
the registry invariant. -/
theorem regInsert_inv (canon : Str → Option Str) (reg : Registry) (k : Str)
    (info : WorktreeInfo)
    (hid : k = stable_id_from_path canon info.path)
    (hinv : ∀ kv ∈ reg, kv.1 = stable_id_from_path canon kv.2.path)
    (hnd : (reg.map Prod.fst).Nodup) :
    (∀ kv ∈ regInsert reg k info, kv.1 = stable_id_from_path canon kv.2.path)
    ∧ ((regInsert reg k info).map Prod.fst).Nodup := by
  constructor
  · intro kv hkv
    simp only [regInsert, List.mem_cons] at hkv
    rcases hkv with rfl | hkv
    · exact hid
    · exact hinv kv (List.mem_of_mem_filter hkv)
  · simp only [regInsert, List.map_cons, List.nodup_cons]
    constructor
    · intro hmem
      simp only [List.mem_map] at hmem
      obtain ⟨kv, hkv, hfst⟩ := hmem
      have h2 := (List.mem_filter.mp hkv).2
      rw [hfst] at h2
      simp at h2
    · have hsub : List.Sublist (reg.filter (fun kv => kv.1 != k)) reg :=
        List.filter_sublist _
      exact hnd.sublist (hsub.map Prod.fst)

/-- Every registry reachable through the lifecycle operations keys each
record by the stable id of its own path, with no duplicate keys. -/
theorem reachable_inv (canon : Str → Option Str) (reg : Registry)
    (h : Reachable canon reg) :
    (∀ kv ∈ reg, kv.1 = stable_id_from_path canon kv.2.path)
    ∧ (reg.map Prod.fst).Nodup := by
  induction h with
  | empty => exact ⟨by simp, by simp⟩
  | createStep env st args hc hr ih =>
    rcases create_registry_cases env st args with hsame | ⟨k, info, hreg', hid⟩
    · rw [hsame]
      exact ih
    · rw [hreg']
      rw [hc] at hid
      exact regInsert_inv canon st.registry k info hid ih.1 ih.2
  | fromBranchStep env st args hc hr ih =>
    rcases fromBranch_registry_cases env st args with hsame | ⟨k, info, hreg', hid⟩
    · rw [hsame]
      exact ih
    · rw [hreg']
      rw [hc] at hid
      exact regInsert_inv canon st.registry k info hid ih.1 ih.2
  | removeStep st args hr ih =>
    rcases remove_registry_cases st args with hsame | her
    · rw [hsame]
      exact ih
    · rw [her]
      constructor
      · intro kv hkv
        exact ih.1 kv (List.mem_of_mem_filter hkv)
      · have hsub : List.Sublist (regErase st.registry args.worktree_id) st.registry :=
          List.filter_sublist _
        exact ih.2.sublist (hsub.map Prod.fst)

/-- C8: in every registry state reachable through create,
create-from-branch and remove, each entry's key is the stable id of its
own stored path, and two live entries never share a path — the path
determines the entry. -/
theorem registry_identity_inv (canon : Str → Option Str) (reg : Registry)
    (h : Reachable canon reg) :
    (∀ kv ∈ reg, kv.1 = stable_id_from_path canon kv.2.path)
    ∧ (∀ kv1 ∈ reg, ∀ kv2 ∈ reg, kv1.2.path = kv2.2.path → kv1 = kv2) := by
  obtain ⟨hinv, hnd⟩ := reachable_inv canon reg h
  refine ⟨hinv, ?_⟩
  intro kv1 h1 kv2 h2 hp
  have hk : kv1.1 = kv2.1 := by
    rw [hinv kv1 h1, hinv kv2 h2, hp]
  exact List.inj_on_of_nodup_map hnd h1 h2 hk

/-- Witness for C8: the registry after one successful create from the
empty registry satisfies the invariant. -/
theorem registry_identity_inv_witness :
    (∀ kv ∈ (worktree_create cEnvOkFix ⟨[], []⟩ cArgsFix).registry,
        kv.1 = stable_id_from_path cEnvOkFix.canon kv.2.path)
    ∧ (∀ kv1 ∈ (worktree_create cEnvOkFix ⟨[], []⟩ cArgsFix).registry,
        ∀ kv2 ∈ (worktree_create cEnvOkFix ⟨[], []⟩ cArgsFix).registry,
        kv1.2.path = kv2.2.path → kv1 = kv2) :=
  registry_identity_inv cEnvOkFix.canon _
    (Reachable.createStep cEnvOkFix ⟨[], []⟩ cArgsFix rfl Reachable.empty)

/-- A create call either fails or returns a workspace record and pushes
its branch upstream exactly when the push flag is on. -/
theorem create_pushes_cases (env : CreateEnv) (st : WtState) (args : CreateArgs) :
    (worktree_create env st args).success = false
    ∨ ∃ wt, (worktree_create env st args).worktree = some wt
        ∧ (should_push_on_create env.settings = true →
            (worktree_create env st args).pushes = [wt.branch])
        ∧ (should_push_on_create env.settings = false →
            (worktree_create env st args).pushes = []) := by
  simp only [worktree_create]
  repeat' split
  all_goals try (left; exact rfl)
  all_goals (right; refine ⟨_, rfl, fun hflag => ?_, fun hflag => ?_⟩)
  all_goals try (dsimp only)
  all_goals simp_all

/-- C10: an absent or non-boolean repository.pushOnCreate flag makes
`should_push_on_create` true; the flag is off exactly when it is the
explicit boolean false; and a successful create pushes the new branch
upstream exactly when the flag is on. -/
theorem push_on_create_default (env : CreateEnv) (st : WtState) (args : CreateArgs) :
    (((jget env.settings "repository".data).bind
        (fun v => jget v "pushOnCreate".data)).bind jAsBool = none →
      should_push_on_create env.settings = true)
    ∧ (should_push_on_create env.settings = false ↔
        ((jget env.settings "repository".data).bind
          (fun v => jget v "pushOnCreate".data)) = some (JValue.bool false))
    ∧ ((worktree_create env st args).success = true →
        ∃ wt, (worktree_create env st args).worktree = some wt
          ∧ (should_push_on_create env.settings = true →
              (worktree_create env st args).pushes = [wt.branch])
          ∧ (should_push_on_create env.settings = false →
              (worktree_create env st args).pushes = [])) := by
  refine ⟨?_, ?_, ?_⟩
  · intro h
    simp [should_push_on_create, h]
  · cases ho : ((jget env.settings "repository".data).bind
        (fun v => jget v "pushOnCreate".data)) with
    | none => simp [should_push_on_create, ho]
    | some v =>
      cases v with
      | bool b =>
        cases b with
        | false => simp [should_push_on_create, ho, jAsBool]
        | true => simp [should_push_on_create, ho, jAsBool]
      | null => simp [should_push_on_create, ho, jAsBool]
      | num n => simp [should_push_on_create, ho, jAsBool]
      | str s => simp [should_push_on_create, ho, jAsBool]
      | arr xs => simp [should_push_on_create, ho, jAsBool]
      | obj fields => simp [should_push_on_create, ho, jAsBool]
  · intro hs
    rcases create_pushes_cases env st args with hfail | ⟨wt, hwt, hon, hoff⟩
    · rw [hs] at hfail
      exact absurd hfail (by decide)
    · exact ⟨wt, hwt, hon, hoff⟩

/-- Witness for C10: with an empty settings store (flag absent) the
push flag defaults on, and the concrete successful create pushes its
new branch. -/
theorem push_on_create_default_witness :
    should_push_on_create cEnvOkFix.settings = true
    ∧ ∃ wt, (worktree_create cEnvOkFix ⟨[], []⟩ cArgsFix).worktree = some wt
        ∧ (should_push_on_create cEnvOkFix.settings = true →
            (worktree_create cEnvOkFix ⟨[], []⟩ cArgsFix).pushes = [wt.branch])
        ∧ (should_push_on_create cEnvOkFix.settings = false →
            (worktree_create cEnvOkFix ⟨[], []⟩ cArgsFix).pushes = []) :=
  ⟨(push_on_create_default cEnvOkFix ⟨[], []⟩ cArgsFix).1 rfl,
   (push_on_create_default cEnvOkFix ⟨[], []⟩ cArgsFix).2.2 rfl⟩

end Emdash
